import Mathlib

/-!
Shallow embedding of `src/main.rs` of the cataclysm repository: a typed IR
for x86-64 assembly and its text renderer.  Machine integers are modelled as
`Nat` with explicit reduction modulo `2 ^ 64` where overflow matters; Rust's
`DefaultHasher` (SipHash-1-3 with both keys zero) is modelled bit-exactly.
All definitions are executable and kernel-reducible.
-/

namespace Cataclysm

/-! ### 64-bit word arithmetic -/

/-- `2 ^ 64`, the modulus of Rust `u64` arithmetic. -/
def w64 : Nat := 2 ^ 64

/-- Wrapping `u64` addition (`u64::wrapping_add`). -/
def wadd (a b : Nat) : Nat := (a + b) % w64

/-- `u64::rotate_left` for a word `x < 2 ^ 64`. -/
def rotl64 (b x : Nat) : Nat := ((x <<< b) % w64) ||| (x >>> (64 - b))

/-! ### SipHash-1-3, the algorithm behind `std::collections::hash_map::DefaultHasher`

`Label::hashed` feeds the label through `DefaultHasher`, which is
`SipHasher13::new_with_keys(0, 0)`.  `str`'s `Hash` impl writes the UTF-8
bytes of the string followed by a single `0xFF` byte. -/

/-- The four 64-bit state words of a SipHash computation. -/
structure SipState where
  v0 : Nat
  v1 : Nat
  v2 : Nat
  v3 : Nat

/-- One SIPROUND, exactly as in the reference implementation used by Rust. -/
def sipRound (s : SipState) : SipState :=
  let v0 := wadd s.v0 s.v1
  let v1 := rotl64 13 s.v1
  let v1 := v1 ^^^ v0
  let v0 := rotl64 32 v0
  let v2 := wadd s.v2 s.v3
  let v3 := rotl64 16 s.v3
  let v3 := v3 ^^^ v2
  let v0 := wadd v0 v3
  let v3 := rotl64 21 v3
  let v3 := v3 ^^^ v0
  let v2 := wadd v2 v1
  let v1 := rotl64 17 v1
  let v1 := v1 ^^^ v2
  let v2 := rotl64 32 v2
  ⟨v0, v1, v2, v3⟩

/-- Absorb one message word: `v3 ^= m`, one round (`c = 1`), `v0 ^= m`. -/
def sipCompress (s : SipState) (m : Nat) : SipState :=
  let s := { s with v3 := s.v3 ^^^ m }
  let s := sipRound s
  { s with v0 := s.v0 ^^^ m }

/-- The streaming hasher state of `SipHasher13` (`DefaultHasher`):
the four state words, the buffered tail word (little-endian, `ntail`
bytes filled), and the total number of bytes written so far. -/
structure SipHasher where
  state : SipState
  tail : Nat
  ntail : Nat
  length : Nat

/-- `DefaultHasher::new()`: `SipHasher13::new_with_keys(0, 0)`. -/
def SipHasher.new : SipHasher :=
  let k0 : Nat := 0
  let k1 : Nat := 0
  { state :=
      ⟨0x736f6d6570736575 ^^^ k0, 0x646f72616e646f6d ^^^ k1,
       0x6c7967656e657261 ^^^ k0, 0x7465646279746573 ^^^ k1⟩
    tail := 0, ntail := 0, length := 0 }

/-- Feed one byte into the hasher, compressing whenever eight bytes have
accumulated in the little-endian tail buffer. -/
def SipHasher.writeByte (h : SipHasher) (b : Nat) : SipHasher :=
  let tail := h.tail ||| (b <<< (8 * h.ntail))
  if h.ntail = 7 then
    { state := sipCompress h.state tail, tail := 0, ntail := 0, length := h.length + 1 }
  else
    { h with tail := tail, ntail := h.ntail + 1, length := h.length + 1 }

/-- `Hasher::write`: feed a sequence of bytes. -/
def SipHasher.write (h : SipHasher) (bs : List Nat) : SipHasher :=
  bs.foldl SipHasher.writeByte h

/-- `Hasher::finish` of `SipHasher13`: absorb the final block
`((length & 0xff) << 56) | tail`, xor `0xff` into `v2`, run the three
finalization rounds (`d = 3`) and xor the four state words together. -/
def SipHasher.finish (h : SipHasher) : Nat :=
  let b := ((h.length % 256) <<< 56) ||| h.tail
  let s := sipCompress h.state b
  let s := { s with v2 := s.v2 ^^^ 0xff }
  let s := sipRound (sipRound (sipRound s))
  s.v0 ^^^ s.v1 ^^^ s.v2 ^^^ s.v3

/-- UTF-8 encoding of one code point (as `String::as_bytes` produces). -/
def utf8EncodeChar (c : Nat) : List Nat :=
  if c < 0x80 then [c]
  else if c < 0x800 then
    [0xC0 ||| (c >>> 6), 0x80 ||| (c &&& 0x3F)]
  else if c < 0x10000 then
    [0xE0 ||| (c >>> 12), 0x80 ||| ((c >>> 6) &&& 0x3F), 0x80 ||| (c &&& 0x3F)]
  else
    [0xF0 ||| (c >>> 18), 0x80 ||| ((c >>> 12) &&& 0x3F),
     0x80 ||| ((c >>> 6) &&& 0x3F), 0x80 ||| (c &&& 0x3F)]

/-- The UTF-8 bytes of a string (`str::as_bytes`). -/
def strUtf8Bytes (s : String) : List Nat :=
  (s.data.map (fun c => utf8EncodeChar c.toNat)).flatten

/-- `<str as Hash>::hash` into a fresh `DefaultHasher`, then `finish`:
the hasher is fed the UTF-8 bytes of the string followed by `0xFF`. -/
def strHash (s : String) : Nat :=
  SipHasher.finish (SipHasher.write SipHasher.new (strUtf8Bytes s ++ [0xFF]))

/-! ### Hexadecimal formatting -/

/-- A lowercase hexadecimal digit (for Rust's `{:x}` format). -/
def hexDigitLower : Nat → Char
  | 0 => '0' | 1 => '1' | 2 => '2' | 3 => '3' | 4 => '4'
  | 5 => '5' | 6 => '6' | 7 => '7' | 8 => '8' | 9 => '9'
  | 10 => 'a' | 11 => 'b' | 12 => 'c' | 13 => 'd' | 14 => 'e' | _ => 'f'

/-- An uppercase hexadecimal digit (for Rust's `{:X}` format). -/
def hexDigitUpper : Nat → Char
  | 0 => '0' | 1 => '1' | 2 => '2' | 3 => '3' | 4 => '4'
  | 5 => '5' | 6 => '6' | 7 => '7' | 8 => '8' | 9 => '9'
  | 10 => 'A' | 11 => 'B' | 12 => 'C' | 13 => 'D' | 14 => 'E' | _ => 'F'

/-- Digit list of `n` in base 16, most significant first, no leading zeros
(empty for `n = 0`); the first argument is recursion fuel. -/
def hexDigitsAux : Nat → Nat → List Char
  | 0, _ => []
  | fuel + 1, n =>
    if n = 0 then [] else hexDigitsAux fuel (n / 16) ++ [hexDigitLower (n % 16)]

/-- Rust's `format!("{:x}", n)`: minimal-width lowercase hexadecimal,
with `"0"` for zero.  Sixty-four digits of fuel cover every `n < 16 ^ 64`. -/
def toHexLower (n : Nat) : String :=
  if n = 0 then "0" else String.mk (hexDigitsAux 64 n)

/-- Rust's `format!("0x{:02X}", byte)` for a `u8` value: `"0x"` followed by
exactly two uppercase hexadecimal digits. -/
def byteHexUpper (b : Nat) : String :=
  String.mk ['0', 'x', hexDigitUpper (b / 16 % 16), hexDigitUpper (b % 16)]

/-- Claim-side definition following the spec's words: a 64-bit value
formatted as fixed-width, 16-digit, zero-padded lowercase hexadecimal. -/
def specHexPadded16 (n : Nat) : String :=
  String.mk (((List.range 16).reverse).map (fun i => hexDigitLower (n / 16 ^ i % 16)))

/-! ### `Label` and `Global` -/

/-- `struct Label { label: String }`. -/
structure Label where
  label : String

/-- `Label::plain`. -/
def Label.plain (label : String) : Label :=
  { label := label }

/-- `Label::hashed`: hash the name with `DefaultHasher` and format the
64-bit result as `format!("L_{:x}", hash)`. -/
def Label.hashed (label : String) : Label :=
  let hash := strHash label
  { label := "L_" ++ toHexLower hash }

/-- `impl fmt::Display for Label`: `write!(f, "{}:", self.label)`. -/
def Label.display (l : Label) : String :=
  l.label ++ ":"

/-- `struct Global { value: String }`. -/
structure Global where
  value : String

/-- `Global::new`. -/
def Global.new (value : String) : Global :=
  { value := value }

/-- `impl fmt::Display for Global`: `write!(f, "global {}", self.value)`. -/
def Global.display (g : Global) : String :=
  "global " ++ g.value

/-! ### Registers -/

/-- `enum Amd64SpecialRegister`. -/
inductive Amd64SpecialRegister where
  | RAX
  | RBX
  | RCX
  | RDX
  | RDI
  | RSI
  | RIP

/-- `impl fmt::Display for Amd64SpecialRegister`. -/
def Amd64SpecialRegister.display : Amd64SpecialRegister → String
  | .RAX => "rax"
  | .RBX => "rbx"
  | .RCX => "rcx"
  | .RDX => "rdx"
  | .RDI => "rdi"
  | .RSI => "rsi"
  | .RIP => "rip"

/-- `enum Amd64Register`: general purpose (`u32` index) or special. -/
inductive Amd64Register where
  | GeneralPurpose (reg_num : Nat)
  | Special (reg : Amd64SpecialRegister)

/-- `impl fmt::Display for Amd64Register`: `write!(f, "x{}", reg_num)` for
general-purpose registers, the special register's own text otherwise. -/
def Amd64Register.display : Amd64Register → String
  | .GeneralPurpose reg_num => "x" ++ toString reg_num
  | .Special reg => reg.display

/-! ### Separator joining

Models `Vec<String>::join(sep)` and the comma-separated emission loops:
elements in order with `sep` between consecutive elements and no trailing
separator. -/

/-- Join a list of strings with a separator between consecutive elements. -/
def joinSep (sep : String) : List String → String
  | [] => ""
  | [s] => s
  | s :: rest => s ++ sep ++ joinSep sep rest

/-! ### Immediates -/

/-- `enum ImmediateValue`; byte payloads (`&[u8]`) are lists of `u8` values. -/
inductive ImmediateValue where
  | Label (s : Label)
  | U64 (n : Nat)
  | USize (n : Nat)
  | I64 (n : Int)
  | Bytes (b : List Nat)

/-- The `Bytes` arm of `impl fmt::Display for ImmediateValue`: an indexed
loop writing `format!("0x{:02X}", byte)` and appending `", "` after every
byte except the one at index `len - 1`. -/
def bytesImmDisplay (b : List Nat) : String :=
  (List.enum b).foldl
    (fun acc p =>
      if p.1 = b.length - 1 then acc ++ byteHexUpper p.2
      else acc ++ byteHexUpper p.2 ++ ", ")
    ""

/-- `impl fmt::Display for ImmediateValue`: numeric arms print in decimal,
the label arm prints the bare symbol text, the bytes arm the hex list. -/
def ImmediateValue.display : ImmediateValue → String
  | .U64 n => toString n
  | .I64 n => toString n
  | .USize n => toString n
  | .Label s => s.label
  | .Bytes b => bytesImmDisplay b

/-! ### Operands -/

/-- `struct LabelOffset { label: Label, rel: Option<Amd64Register> }` —
the payload of a `DataRef` operand: a symbol and an optional base register. -/
structure LabelOffset where
  label : Label
  rel : Option Amd64Register

/-- `enum Operand`. -/
inductive Operand where
  | Register (reg : Amd64Register)
  | Immediate (imm : ImmediateValue)
  | DataRef (r : LabelOffset)

/-- `impl fmt::Display for Operand`: registers and immediates by their own
display; a `DataRef` as `[rel SYMBOL]` without a base register and
`[REG + SYMBOL]` with one. -/
def Operand.display : Operand → String
  | .Register reg => reg.display
  | .Immediate imm => imm.display
  | .DataRef r =>
    match r.rel with
    | none => "[rel " ++ r.label.label ++ "]"
    | some v => "[" ++ v.display ++ " + " ++ r.label.label ++ "]"

/-! ### Instructions -/

/-- `struct Amd64Instruction { mnemonic: String, operands: Vec<Operand> }`. -/
structure Amd64Instruction where
  mnemonic : String
  operands : List Operand

/-- `Amd64Instruction::new`. -/
def Amd64Instruction.new (mnemonic : String) (operands : List Operand) : Amd64Instruction :=
  { mnemonic := mnemonic, operands := operands }

/-- `impl fmt::Display for Amd64Instruction`: the mnemonic; then, when the
operand list is non-empty, a tab and the operands written by an indexed
loop that puts `", "` before every operand of positive index. -/
def Amd64Instruction.display (inst : Amd64Instruction) : String :=
  inst.mnemonic ++
    if inst.operands.isEmpty then "" else
      "\t" ++ (List.enum inst.operands).foldl
        (fun acc p => acc ++ (if 0 < p.1 then ", " else "") ++ Operand.display p.2)
        ""

/-! ### Dead-code reference types (`Amd64MemoryAccess`, `Amd64LabelOffset`)

Present in the source but used by no `Operand` variant. -/

/-- `struct Amd64MemoryAccess`. -/
structure Amd64MemoryAccess where
  base_register : Amd64Register
  displacement : Int
  index_register : Option Amd64Register
  scale : Nat

/-- `impl fmt::Display for Amd64MemoryAccess`. -/
def Amd64MemoryAccess.display (m : Amd64MemoryAccess) : String :=
  "[" ++ m.base_register.display ++
    (if m.displacement ≠ 0 then toString m.displacement else "") ++
    (match m.index_register with
     | some index_reg =>
       "," ++ index_reg.display ++ (if 1 < m.scale then "," ++ toString m.scale else "")
     | none => "") ++
    "]"

/-- `struct Amd64LabelOffset { label: ImmediateValue, offset: i64,
dest_register: Amd64Register }`: the only displacement-carrying reference
type; the offset sits beside the label, not inside it. -/
structure Amd64LabelOffset where
  label : ImmediateValue
  offset : Int
  dest_register : Amd64Register

/-- `impl fmt::Display for Amd64LabelOffset`:
`write!(f, "{}({})(%rip), {}", offset, label, dest_register)`. -/
def Amd64LabelOffset.display (a : Amd64LabelOffset) : String :=
  toString a.offset ++ "(" ++ a.label.display ++ ")(%rip), " ++ a.dest_register.display

/-! ### Data directives -/

/-- `enum Data`; `f64` payloads are modelled by Lean's `Float`
(no claim touches the `Float` arm). -/
inductive Data where
  | Int (v : Int)
  | UInt (v : Nat)
  | USize (v : Nat)
  | Float (v : Float)
  | Bytes (v : List Nat)

/-- `impl fmt::Display for Data`: scalar arms as `dq <decimal>`, the bytes
arm as `db ` followed by the `0xHH` tokens joined with `", "`
(`Vec::join`). -/
def Data.display : Data → String
  | .Float v => "dq " ++ toString v
  | .Int v => "dq " ++ toString v
  | .UInt v => "dq " ++ toString v
  | .USize v => "dq " ++ toString v
  | .Bytes v => "db " ++ joinSep ", " (v.map byteHexUpper)

/-! ### Expressions and sections -/

/-- `enum AsmExpr`. -/
inductive AsmExpr where
  | Data (data : Data)
  | Instruction (inst : Amd64Instruction)
  | Block (lines : List AsmExpr)
  | Label (lbl : Label)
  | Raw (str : String)

mutual

/-- `impl fmt::Display for AsmExpr`: data and instructions behind two tabs,
labels behind one tab, raw text verbatim, blocks as their lines each
followed by a newline. -/
def AsmExpr.display : AsmExpr → String
  | .Data data => "\t\t" ++ data.display
  | .Instruction inst => "\t\t" ++ inst.display
  | .Label lbl => "\t" ++ lbl.display
  | .Raw str => str
  | .Block lines => AsmExpr.displayLines lines

/-- The block loop of `impl fmt::Display for AsmExpr`:
`for line in lines { write!(f, "{}\n", line)?; }`. -/
def AsmExpr.displayLines : List AsmExpr → String
  | [] => ""
  | line :: rest => AsmExpr.display line ++ "\n" ++ AsmExpr.displayLines rest

end

/-- `struct Section { name: String, body: Vec<AsmExpr> }`. -/
structure Section where
  name : String
  body : List AsmExpr

/-- `Section::new`. -/
def Section.new (name : String) (body : List AsmExpr) : Section :=
  { name := name, body := body }

/-- `impl fmt::Display for Section`: `writeln!(f, "section .{}", name)`,
then (when the body is non-empty) each body expression followed by a
newline. -/
def Section.display (s : Section) : String :=
  ("section ." ++ s.name ++ "\n") ++
    if s.body.isEmpty then "" else
      s.body.foldl (fun acc line => acc ++ AsmExpr.display line ++ "\n") ""

/-! ### Verification helpers -/

/-- Whether a SipHash state's four words are 64-bit values. -/
def SipState.Bounded (s : SipState) : Prop :=
  s.v0 < w64 ∧ s.v1 < w64 ∧ s.v2 < w64 ∧ s.v3 < w64

/-- Whether a hasher's state words and tail buffer are 64-bit values and
fewer than eight tail bytes are buffered. -/
def SipHasher.Bounded (h : SipHasher) : Prop :=
  h.state.Bounded ∧ h.tail < w64 ∧ h.ntail < 8

/-- The separator-prefixed tail of a separated list: every element is
preceded by the separator. -/
def sepPrefixed {α : Type} (sep : String) (g : α → String) : List α → String
  | [] => ""
  | x :: xs => sep ++ g x ++ sepPrefixed sep g xs

/-! ### Helper lemmas -/

theorem w64_pos : 0 < w64 := by decide

theorem wadd_lt (a b : Nat) : wadd a b < w64 :=
  Nat.mod_lt _ w64_pos

theorem xor_lt_w64 {a b : Nat} (ha : a < w64) (hb : b < w64) : a ^^^ b < w64 :=
  Nat.xor_lt_two_pow ha hb

theorem rotl64_lt (b x : Nat) (hx : x < w64) : rotl64 b x < w64 := by
  unfold rotl64
  apply Nat.or_lt_two_pow (Nat.mod_lt _ w64_pos)
  rw [Nat.shiftRight_eq_div_pow]
  exact Nat.lt_of_le_of_lt (Nat.div_le_self _ _) hx

theorem sipRound_bounded {s : SipState} (h : s.Bounded) : (sipRound s).Bounded := by
  obtain ⟨_, h1, _, h3⟩ := h
  exact ⟨wadd_lt _ _,
         xor_lt_w64 (rotl64_lt _ _ (xor_lt_w64 (rotl64_lt _ _ h1) (wadd_lt _ _))) (wadd_lt _ _),
         rotl64_lt _ _ (wadd_lt _ _),
         xor_lt_w64 (rotl64_lt _ _ (xor_lt_w64 (rotl64_lt _ _ h3) (wadd_lt _ _))) (wadd_lt _ _)⟩

theorem sipCompress_bounded {s : SipState} {m : Nat} (h : s.Bounded) (hm : m < w64) :
    (sipCompress s m).Bounded := by
  obtain ⟨h0, h1, h2, h3⟩ := h
  have hx : SipState.Bounded { s with v3 := s.v3 ^^^ m } := ⟨h0, h1, h2, xor_lt_w64 h3 hm⟩
  obtain ⟨r0, r1, r2, r3⟩ := sipRound_bounded hx
  exact ⟨xor_lt_w64 r0 hm, r1, r2, r3⟩

theorem sipHasher_new_bounded : SipHasher.new.Bounded :=
  ⟨⟨by decide, by decide, by decide, by decide⟩, by decide, by decide⟩

theorem writeByte_bounded {h : SipHasher} {b : Nat} (hh : h.Bounded) (hb : b < 256) :
    (h.writeByte b).Bounded := by
  obtain ⟨hs, ht, hn⟩ := hh
  have htail : (h.tail ||| (b <<< (8 * h.ntail))) < w64 := by
    apply Nat.or_lt_two_pow ht
    rw [Nat.shiftLeft_eq]
    have hp : 0 < 2 ^ (8 * h.ntail) := pow_pos (by norm_num) _
    have h1 : b * 2 ^ (8 * h.ntail) < 256 * 2 ^ (8 * h.ntail) :=
      (Nat.mul_lt_mul_right hp).mpr hb
    have h2 : (256 : Nat) * 2 ^ (8 * h.ntail) ≤ 256 * 2 ^ 56 :=
      Nat.mul_le_mul_left _ (Nat.pow_le_pow_right (by omega) (by omega))
    exact Nat.lt_of_lt_of_le h1 (Nat.le_trans h2 (by norm_num))
  by_cases h7 : h.ntail = 7
  · have heq : h.writeByte b =
        { state := sipCompress h.state (h.tail ||| (b <<< (8 * h.ntail))),
          tail := 0, ntail := 0, length := h.length + 1 } := by
      unfold SipHasher.writeByte
      rw [if_pos h7]
    rw [heq]
    exact ⟨sipCompress_bounded hs htail, show (0 : Nat) < w64 from w64_pos,
           show (0 : Nat) < 8 from by omega⟩
  · have heq : h.writeByte b =
        { h with tail := h.tail ||| (b <<< (8 * h.ntail)),
                 ntail := h.ntail + 1, length := h.length + 1 } := by
      unfold SipHasher.writeByte
      rw [if_neg h7]
    rw [heq]
    exact ⟨hs, htail, show h.ntail + 1 < 8 from by omega⟩

theorem write_bounded {bs : List Nat} :
    ∀ {h : SipHasher}, h.Bounded → (∀ b ∈ bs, b < 256) → (h.write bs).Bounded := by
  induction bs with
  | nil => intro h hh _; exact hh
  | cons b bs ih =>
    intro h hh hbs
    exact ih (writeByte_bounded hh (hbs b (List.mem_cons_self _ _)))
      (fun x hx => hbs x (List.mem_cons_of_mem _ hx))

theorem finish_lt {h : SipHasher} (hh : h.Bounded) : h.finish < w64 := by
  obtain ⟨hs, ht, _⟩ := hh
  have hb : (((h.length % 256) <<< 56) ||| h.tail) < w64 := by
    have hm : h.length % 256 < 256 := Nat.mod_lt _ (by omega)
    have hsh : ((h.length % 256) <<< 56) < w64 := by
      rw [Nat.shiftLeft_eq]
      have h1 : (h.length % 256) * 2 ^ 56 < 256 * 2 ^ 56 :=
        (Nat.mul_lt_mul_right (by norm_num)).mpr hm
      exact Nat.lt_of_lt_of_le h1 (by norm_num [w64])
    exact Nat.or_lt_two_pow hsh ht
  obtain ⟨c0, c1, c2, c3⟩ := sipCompress_bounded hs hb
  have hmid : SipState.Bounded
      { sipCompress h.state (((h.length % 256) <<< 56) ||| h.tail) with
        v2 := (sipCompress h.state (((h.length % 256) <<< 56) ||| h.tail)).v2 ^^^ 0xff } :=
    ⟨c0, c1, xor_lt_w64 c2 (show (0xff : Nat) < w64 from by decide), c3⟩
  obtain ⟨r0, r1, r2, r3⟩ := sipRound_bounded (sipRound_bounded (sipRound_bounded hmid))
  exact xor_lt_w64 (xor_lt_w64 (xor_lt_w64 r0 r1) r2) r3

theorem char_toNat_lt (c : Char) : c.toNat < 0x110000 := by
  have h := c.valid
  rcases h with h | ⟨_, h⟩
  · exact Nat.lt_trans h (by decide)
  · exact h

theorem utf8EncodeChar_lt {c : Nat} (hc : c < 0x110000) :
    ∀ b ∈ utf8EncodeChar c, b < 256 := by
  intro b hb
  unfold utf8EncodeChar at hb
  split at hb
  · next h =>
    simp only [List.mem_singleton] at hb
    omega
  · split at hb
    · next h =>
      have h6 : c >>> 6 < 256 := by
        rw [Nat.shiftRight_eq_div_pow]
        omega
      simp only [List.mem_cons, List.mem_singleton] at hb
      rcases hb with rfl | rfl | hb
      · exact @Nat.or_lt_two_pow _ _ 8 (by decide) h6
      · exact @Nat.or_lt_two_pow _ _ 8 (by decide) (Nat.and_lt_two_pow _ (by decide))
      · cases hb
    · split at hb
      · next h =>
        have h12 : c >>> 12 < 256 := by
          rw [Nat.shiftRight_eq_div_pow]
          omega
        simp only [List.mem_cons, List.mem_singleton] at hb
        rcases hb with rfl | rfl | rfl | hb
        · exact @Nat.or_lt_two_pow _ _ 8 (by decide) h12
        · exact @Nat.or_lt_two_pow _ _ 8 (by decide) (Nat.and_lt_two_pow _ (by decide))
        · exact @Nat.or_lt_two_pow _ _ 8 (by decide) (Nat.and_lt_two_pow _ (by decide))
        · cases hb
      · have h18 : c >>> 18 < 256 := by
          rw [Nat.shiftRight_eq_div_pow]
          omega
        simp only [List.mem_cons, List.mem_singleton] at hb
        rcases hb with rfl | rfl | rfl | rfl | hb
        · exact @Nat.or_lt_two_pow _ _ 8 (by decide) h18
        · exact @Nat.or_lt_two_pow _ _ 8 (by decide) (Nat.and_lt_two_pow _ (by decide))
        · exact @Nat.or_lt_two_pow _ _ 8 (by decide) (Nat.and_lt_two_pow _ (by decide))
        · exact @Nat.or_lt_two_pow _ _ 8 (by decide) (Nat.and_lt_two_pow _ (by decide))
        · cases hb

theorem strHash_message_lt (s : String) : ∀ b ∈ strUtf8Bytes s ++ [0xFF], b < 256 := by
  intro b hb
  rcases List.mem_append.1 hb with h | h
  · unfold strUtf8Bytes at h
    rw [List.mem_flatten] at h
    obtain ⟨l, hl, hbl⟩ := h
    rw [List.mem_map] at hl
    obtain ⟨c, _, rfl⟩ := hl
    exact utf8EncodeChar_lt (char_toNat_lt c) b hbl
  · simp only [List.mem_singleton] at h
    omega

theorem strHash_lt (s : String) : strHash s < w64 :=
  finish_lt (write_bounded sipHasher_new_bounded (strHash_message_lt s))

theorem hexDigitsAux_length_le :
    ∀ (fuel n k : Nat), n < 16 ^ k → (hexDigitsAux fuel n).length ≤ k := by
  intro fuel
  induction fuel with
  | zero => intro n k _; simp [hexDigitsAux]
  | succ fuel ih =>
    intro n k hn
    unfold hexDigitsAux
    split
    · simp
    · next hne =>
      cases k with
      | zero =>
        simp only [Nat.pow_zero, Nat.lt_one_iff] at hn
        exact absurd hn hne
      | succ k =>
        have hdiv : n / 16 < 16 ^ k := by
          rw [Nat.div_lt_iff_lt_mul (by omega)]
          calc n < 16 ^ (k + 1) := hn
            _ = 16 ^ k * 16 := Nat.pow_succ 16 k
        have := ih (n / 16) k hdiv
        simp only [List.length_append, List.length_singleton]
        omega

theorem toHexLower_length_le {n : Nat} (hn : n < w64) : (toHexLower n).length ≤ 16 := by
  unfold toHexLower
  split
  · decide
  · show (String.mk (hexDigitsAux 64 n)).length ≤ 16
    have h16 : n < 16 ^ 16 := by
      have : w64 = 16 ^ 16 := by norm_num [w64]
      omega
    simpa [String.length] using hexDigitsAux_length_le 64 n 16 h16

theorem foldl_enumFrom_sep {α : Type} (g : α → String) :
    ∀ (xs : List α) (n : Nat) (acc : String),
      (List.enumFrom (n + 1) xs).foldl
        (fun acc p => acc ++ (if 0 < p.1 then ", " else "") ++ g p.2) acc
      = acc ++ sepPrefixed ", " g xs := by
  intro xs
  induction xs with
  | nil =>
    intro n acc
    simp [List.enumFrom, sepPrefixed, String.append_empty]
  | cons x xs ih =>
    intro n acc
    simp only [List.enumFrom, List.foldl, sepPrefixed]
    rw [if_pos (by omega), ih (n + 1)]
    simp [String.append_assoc]

theorem joinSep_cons_eq {α : Type} (g : α → String) (x : α) (xs : List α) :
    joinSep ", " ((x :: xs).map g) = g x ++ sepPrefixed ", " g xs := by
  induction xs generalizing x with
  | nil => simp [joinSep, sepPrefixed, String.append_empty, List.map]
  | cons y ys ih =>
    show joinSep ", " (g x :: g y :: List.map g ys) = _
    have hstep : joinSep ", " (g x :: g y :: List.map g ys)
        = g x ++ ", " ++ joinSep ", " (g y :: List.map g ys) := rfl
    rw [hstep, show (g y :: List.map g ys) = List.map g (y :: ys) from rfl, ih y]
    simp [sepPrefixed, String.append_assoc]

theorem foldl_enum_lastSep (g : Nat → String) (L : Nat) :
    ∀ (xs : List Nat) (k : Nat) (acc : String), k + xs.length = L → xs ≠ [] →
      (List.enumFrom k xs).foldl
        (fun acc p => if p.1 = L - 1 then acc ++ g p.2 else acc ++ g p.2 ++ ", ") acc
      = acc ++ joinSep ", " (xs.map g) := by
  intro xs
  induction xs with
  | nil => intro k acc _ hne; exact absurd rfl hne
  | cons x xs ih =>
    intro k acc hlen _
    cases xs with
    | nil =>
      have hk : k = L - 1 := by
        simp only [List.length_cons, List.length_nil] at hlen
        omega
      simp [List.enumFrom, List.foldl, hk, joinSep, List.map]
    | cons y ys =>
      have hk : ¬ k = L - 1 := by
        simp only [List.length_cons] at hlen
        omega
      have hstep : (List.enumFrom k (x :: y :: ys)).foldl
          (fun acc p => if p.1 = L - 1 then acc ++ g p.2 else acc ++ g p.2 ++ ", ") acc
        = (List.enumFrom (k + 1) (y :: ys)).foldl
          (fun acc p => if p.1 = L - 1 then acc ++ g p.2 else acc ++ g p.2 ++ ", ")
          (if k = L - 1 then acc ++ g x else acc ++ g x ++ ", ") := rfl
      rw [hstep, if_neg hk,
          ih (k + 1) (acc ++ g x ++ ", ")
            (by simp only [List.length_cons] at hlen ⊢; omega) (by simp)]
      have hjoin : joinSep ", " ((x :: y :: ys).map g)
          = g x ++ ", " ++ joinSep ", " ((y :: ys).map g) := rfl
      rw [hjoin]
      simp [String.append_assoc]

/-! ### Claim theorems -/

/-- C1 (counterexample): `Label::hashed` does not zero-pad the hash.  For the
logical name `"n3"` the 64-bit hash is `0xb15946f382c8097`, below `2 ^ 60`,
and the produced symbol text `"L_b15946f382c8097"` has only 15 hex digits —
it differs from `"L_"` followed by the 16-digit zero-padded rendering. -/
theorem C1_counterexample :
    (Label.hashed "n3").label = "L_b15946f382c8097" ∧
    (Label.hashed "n3").label ≠ "L_" ++ specHexPadded16 (strHash "n3") := by
  constructor
  · decide
  · decide

/-- C1 (amended): for every logical name `n`, `Label::hashed` returns the
literal prefix `"L_"` followed by the 64-bit content hash of `n` formatted
as minimal-width (at most 16 digits, leading zeros omitted) lowercase
hexadecimal; the hash value is indeed a 64-bit quantity. -/
theorem C1_hashed_format (n : String) :
    (Label.hashed n).label = "L_" ++ toHexLower (strHash n) ∧
    strHash n < 2 ^ 64 ∧ (toHexLower (strHash n)).length ≤ 16 :=
  ⟨rfl, strHash_lt n, toHexLower_length_le (strHash_lt n)⟩

/-- C2 (counterexample): the section header is emitted without a leading
dot, so the claimed AT&T text `".section .text\n\t_start:\n"` is not
produced for a Section named `text` holding one Label `_start`. -/
theorem C2_counterexample :
    Section.display (Section.new "text" [AsmExpr.Label (Label.plain "_start")]) ≠
      ".section .text\n\t_start:\n" := by
  decide

/-- C2 (amended): a Section named `text` containing exactly one Label
expression for `_start` renders as `"section .text\n\t_start:\n"`
(Intel/NASM-style `section` directive, no leading dot), with no trailing
stray separators. -/
theorem C2_section_text_render :
    Section.display (Section.new "text" [AsmExpr.Label (Label.plain "_start")]) =
      "section .text\n\t_start:\n" := by
  decide

/-- C3 (counterexample): immediates and registers carry no `$`/`%`
prefixes, so the AT&T-order construction (immediate 60 first, RAX second)
does not render as `"mov\t$60, %rax"`. -/
theorem C3_counterexample :
    (Amd64Instruction.new "mov"
      [Operand.Immediate (ImmediateValue.I64 60),
       Operand.Register (Amd64Register.Special Amd64SpecialRegister.RAX)]).display ≠
      "mov\t$60, %rax" := by
  decide

/-- C3 (amended): the AT&T-order construction (immediate 60, register RAX)
renders as `"mov\t60, rax"` — bare Intel-style operand tokens — and the
Intel-order construction (register RAX, immediate 60) renders as
`"mov\trax, 60"`. -/
theorem C3_mov_render :
    (Amd64Instruction.new "mov"
      [Operand.Immediate (ImmediateValue.I64 60),
       Operand.Register (Amd64Register.Special Amd64SpecialRegister.RAX)]).display =
      "mov\t60, rax" ∧
    (Amd64Instruction.new "mov"
      [Operand.Register (Amd64Register.Special Amd64SpecialRegister.RAX),
       Operand.Immediate (ImmediateValue.I64 60)]).display =
      "mov\trax, 60" := by
  constructor
  · decide
  · decide

/-- C4: `Label::hashed` is deterministic — it is a pure function of the
logical name, with no randomness or process-specific salt (the hasher is
always `SipHasher13::new_with_keys(0, 0)`), so two calls on the same
logical name, at any call sites and in any order, yield byte-identical
symbol text. -/
theorem C4_hashed_deterministic (n₁ n₂ : String) (h : n₁ = n₂) :
    (Label.hashed n₁).label = (Label.hashed n₂).label := by
  rw [h]

/-- C4 witness: two calls of `Label::hashed` on `"helloWorldStr"` yield
identical symbol text. -/
theorem C4_hashed_deterministic_witness :
    (Label.hashed "helloWorldStr").label = (Label.hashed "helloWorldStr").label :=
  C4_hashed_deterministic "helloWorldStr" "helloWorldStr" rfl

/-- C5: an instruction renders as its bare mnemonic when the operand list
is empty; otherwise as the mnemonic, one tab, and the rendered operands
joined by `", "` in stored order, with no trailing separator. -/
theorem C5_instruction_render (inst : Amd64Instruction) :
    inst.display =
      if inst.operands.isEmpty then inst.mnemonic
      else inst.mnemonic ++ "\t" ++ joinSep ", " (inst.operands.map Operand.display) := by
  obtain ⟨mnemonic, operands⟩ := inst
  cases operands with
  | nil => simp [Amd64Instruction.display, List.isEmpty, String.append_empty]
  | cons x xs =>
    show mnemonic ++ ("\t" ++ (List.enumFrom 1 xs).foldl
        (fun acc p => acc ++ (if 0 < p.1 then ", " else "") ++ Operand.display p.2)
        ("" ++ (if (0 : Nat) < 0 then ", " else "") ++ Operand.display x))
      = mnemonic ++ "\t" ++ joinSep ", " ((x :: xs).map Operand.display)
    rw [if_neg (show ¬ (0 : Nat) < 0 from by omega)]
    have h1 : (List.enumFrom 1 xs).foldl
        (fun acc p => acc ++ (if 0 < p.1 then ", " else "") ++ Operand.display p.2)
        ("" ++ "" ++ Operand.display x)
      = ("" ++ "" ++ Operand.display x) ++ sepPrefixed ", " Operand.display xs :=
      foldl_enumFrom_sep Operand.display xs 0 _
    rw [h1, joinSep_cons_eq Operand.display x xs]
    simp [String.empty_append, String.append_assoc]

/-- C6: a non-empty byte sequence renders as `0xHH` tokens joined by
`", "` in input order with no trailing separator, both as an immediate and
(behind `db `) as a data directive; the bytes `[0x00, 0xFF]` render as
`"0x00, 0xFF"` and `"db 0x00, 0xFF"` respectively. -/
theorem C6_bytes_render :
    (∀ b : List Nat, b ≠ [] →
      ImmediateValue.display (.Bytes b) = joinSep ", " (b.map byteHexUpper) ∧
      Data.display (.Bytes b) = "db " ++ joinSep ", " (b.map byteHexUpper)) ∧
    ImmediateValue.display (.Bytes [0x00, 0xFF]) = "0x00, 0xFF" ∧
    Data.display (.Bytes [0x00, 0xFF]) = "db 0x00, 0xFF" := by
  refine ⟨fun b hb => ⟨?_, rfl⟩, by decide, by decide⟩
  show bytesImmDisplay b = _
  have h1 : (List.enumFrom 0 b).foldl
      (fun acc p => if p.1 = b.length - 1 then acc ++ byteHexUpper p.2
                    else acc ++ byteHexUpper p.2 ++ ", ") ""
    = "" ++ joinSep ", " (b.map byteHexUpper) :=
    foldl_enum_lastSep byteHexUpper b.length b 0 "" (by omega) hb
  calc bytesImmDisplay b
      = "" ++ joinSep ", " (b.map byteHexUpper) := h1
    _ = joinSep ", " (b.map byteHexUpper) := String.empty_append _

/-- C6 witness: the general byte-sequence rendering theorem applied to the
concrete non-empty sequence `[0x25]`. -/
theorem C6_bytes_render_witness :
    ImmediateValue.display (.Bytes [0x25]) = joinSep ", " ([0x25].map byteHexUpper) ∧
    Data.display (.Bytes [0x25]) = "db " ++ joinSep ", " ([0x25].map byteHexUpper) :=
  C6_bytes_render.1 [0x25] (by decide)

/-- C7: inside a Section, a Label expression renders as the symbol text
followed by `:` behind exactly one tab of indentation, and that single tab
is strictly shallower than the two tabs applied to Instruction and Data
expressions. -/
theorem C7_label_indent :
    (∀ l : Label, AsmExpr.display (.Label l) = "\t" ++ (l.label ++ ":")) ∧
    (∀ inst : Amd64Instruction, AsmExpr.display (.Instruction inst) = "\t\t" ++ inst.display) ∧
    (∀ d : Data, AsmExpr.display (.Data d) = "\t\t" ++ d.display) ∧
    "\t".length < "\t\t".length :=
  ⟨fun _ => rfl, fun _ => rfl, fun _ => rfl, by decide⟩

/-- C8 (counterexample): the claim's displacement clause is false of the
code — `LabelOffset`, the payload of a `DataRef` operand, consists of
exactly a symbol and an optional base register, so no constructor can
store a displacement in it: any family of `LabelOffset` values with fixed
symbol and base register is constant. -/
theorem C8_counterexample :
    ¬ ∃ mk : Label → Option Amd64Register → Int → LabelOffset,
        (∀ l r d, (mk l r d).label = l ∧ (mk l r d).rel = r) ∧
        (∃ l r d₁ d₂, mk l r d₁ ≠ mk l r d₂) := by
  rintro ⟨mk, hfields, l, r, d₁, d₂, hne⟩
  apply hne
  calc mk l r d₁ = ⟨(mk l r d₁).label, (mk l r d₁).rel⟩ := rfl
    _ = ⟨l, r⟩ := by rw [(hfields l r d₁).1, (hfields l r d₁).2]
    _ = ⟨(mk l r d₂).label, (mk l r d₂).rel⟩ := by
        rw [(hfields l r d₂).1, (hfields l r d₂).2]
    _ = mk l r d₂ := rfl

/-- C8 (amended): a `DataRef` operand renders Intel-style as
`[rel SYMBOL]` when no base register is attached and `[REG + SYMBOL]` when
one is; the reference itself carries only the symbol and the optional base
register — it has no displacement component (the separate, unused
`Amd64LabelOffset` type is the one that pairs a reference with an `i64`
offset, kept outside the symbol). -/
theorem C8_dataref_render :
    (∀ l : Label, Operand.display (.DataRef ⟨l, none⟩) = "[rel " ++ l.label ++ "]") ∧
    (∀ (l : Label) (r : Amd64Register),
      Operand.display (.DataRef ⟨l, some r⟩) = "[" ++ r.display ++ " + " ++ l.label ++ "]") ∧
    (∀ o : LabelOffset, o = ⟨o.label, o.rel⟩) :=
  ⟨fun _ => rfl, fun _ _ => rfl, fun _ => rfl⟩

/-- C9: a symbol-valued immediate renders as the symbol's bare name — no
trailing colon, no prefix — while the same symbol rendered as a Label
definition expression carries a trailing `:`. -/
theorem C9_symbol_immediate_bare :
    (∀ l : Label, ImmediateValue.display (.Label l) = l.label) ∧
    (∀ l : Label, Label.display l = l.label ++ ":") :=
  ⟨fun _ => rfl, fun _ => rfl⟩

/-- C10: the empty byte sequence renders as the empty string as an
immediate and as `"db "` (directive keyword plus one trailing space, no
payload) as a data directive; both renderings are total. -/
theorem C10_empty_bytes :
    ImmediateValue.display (.Bytes []) = "" ∧ Data.display (.Bytes []) = "db " := by
  constructor
  · decide
  · decide

end Cataclysm
